import Mathlib

/-!
# Verification of the abstract query-generator core

Shallow embedding of `src/lib/dialects/abstract/query-generator/index.js`:
identifier quoting, table-name resolution, value escaping, JSON-path
compilation and the recursive order/group quote normalizer, together with
proofs about them.

JavaScript strings are modelled as Lean `String`s (scanning operations work on
their character lists), JavaScript's loose truthiness checks are made explicit,
thrown exceptions are modelled with `Except`, and the handful of collaborators
that are outside the excerpt (the quote helper, the low-level string escaper,
lodash utilities and the model subsystem) are modelled from the specification,
each marked by a doc comment starting with `Modelled from the spec:`.
-/

namespace QueryGen

/-- The SQL dialects the source dispatches on (`this.dialect`).  The three
JSON-capable dialects appear in `jsonPathExtractionQuery`; `mssql` stands for
any further configured dialect and exercises the `default` branch. -/
inductive Dialect where
  | mysql
  | sqlite
  | postgres
  | mssql
deriving DecidableEq, Repr

/-- Modelled from the spec: the `DialectProfile.identifierQuoteChar` used by the
quote helper (which lives in `helpers/quote`, outside the excerpt).  MySQL and
SQLite quote identifiers with a backtick, the remaining profiles with a double
quote. -/
def dialectQuoteChar : Dialect → String
  | .mysql => "`"
  | .sqlite => "`"
  | .postgres => "\""
  | .mssql => "\""

/-- The backtick character (code point 96). -/
def backtickChar : Char := Char.ofNat 96

/-- Same quote characters, as single characters. -/
def dialectQuoteCharC : Dialect → Char
  | .mysql => backtickChar
  | .sqlite => backtickChar
  | .postgres => '"'
  | .mssql => '"'

/-- Modelled from the spec: `QuoteHelper.quoteIdentifier(dialect, identifier,
{force, quoteIdentifiers})` is outside the excerpt; the spec says it "wraps
`name` in the dialect's quote character unless quoting is globally disabled;
`force` overrides the global disable flag". -/
def quoteIdentifierHelper (d : Dialect) (identifier : String)
    (force : Bool) (quoteIdentifiersOpt : Bool) : String :=
  if quoteIdentifiersOpt || force then
    dialectQuoteChar d ++ identifier ++ dialectQuoteChar d
  else
    identifier

/-- True when the string is wrapped in the quote character `q`:
it starts with `q`, ends with `q`, and has length at least two. -/
def wrappedIn (s : String) (q : Char) : Bool :=
  match s.data with
  | [] => false
  | c :: rest =>
    c == q && (match rest.getLast? with
               | some d => d == q
               | none => false)

/-- Modelled from the spec: `QuoteHelper.isIdentifierQuoted(identifier)` is
outside the excerpt; the spec says it "detects whether text is already wrapped
in the dialect quote character(s)".  The helper receives no dialect argument in
the source (line 368), so it recognises both known dialect quote characters. -/
def isIdentifierQuotedHelper (s : String) : Bool :=
  wrappedIn s backtickChar || wrappedIn s '"'

/-- A model description, as read by the quote normalizer.  Associations and raw
attributes are keyed maps (JavaScript objects); the `…Defined` flags model the
source's `!== undefined` guards on lines 181 and 184. -/
structure Association where
  sourceName : String
  targetName : String
  asName : String
  throughModelName : Option String
deriving DecidableEq, Repr

/-- One entry of a model's `rawAttributes` map: the physical column (`field`)
and whether the attribute's type is a `DataTypes.JSON` instance. -/
structure Attr where
  field : String
  isJSON : Bool
deriving DecidableEq, Repr

structure ModelDesc where
  name : String
  associationsDefined : Bool
  associations : List (String × Association)
  rawAttributesDefined : Bool
  rawAttributes : List (String × Attr)
deriving DecidableEq, Repr

/-- Property lookup on the `associations` object. -/
def lookupAssociation (m : ModelDesc) (key : String) : Option Association :=
  (m.associations.find? (fun p => p.1 == key)).map (·.2)

/-- Property lookup on the `rawAttributes` object. -/
def lookupAttribute (m : ModelDesc) (key : String) : Option Attr :=
  (m.rawAttributes.find? (fun p => p.1 == key)).map (·.2)

/-- The process-wide generator state: the dialect, the options read by the
source (`this.options.quoteIdentifiers`, `this.typeValidation`,
`this._dialect.supports.schemas`) and the external association graph, given as
the list of all models (associations refer to their target by model name). -/
structure Ctx where
  dialect : Dialect
  quoteIdentifiersOption : Bool
  supportsSchemas : Bool
  typeValidation : Bool
  env : List ModelDesc
deriving DecidableEq, Repr

/-- Dereference a model object by name in the association graph. -/
def lookupModel (c : Ctx) (name : String) : Option ModelDesc :=
  c.env.find? (fun m => m.name == name)

/-- `quoteIdentifier(identifier, force)` from the source (lines 255-260):
forwards to the quote helper together with the global option. -/
def quoteIdentifierForce (c : Ctx) (identifier : String) (force : Bool) : String :=
  quoteIdentifierHelper c.dialect identifier force c.quoteIdentifiersOption

/-- `quoteIdentifier` as every internal caller uses it: `force` omitted, hence
falsy. -/
def quoteIdentifier (c : Ctx) (identifier : String) : String :=
  quoteIdentifierForce c identifier false

/-- JavaScript `item.toUpperCase()` (ASCII, as the direction tokens are). -/
def jsToUpper (s : String) : String :=
  String.mk (s.data.map Char.toUpper)

/-- JavaScript `array.join(sep)`. -/
def jsJoin (sep : String) : List String → String
  | [] => ""
  | [x] => x
  | x :: rest => x ++ sep ++ jsJoin sep rest

/-- JavaScript `item.indexOf('.') !== -1` on a string. -/
def jsContainsDot (s : String) : Bool :=
  s.data.contains '.'

/-- JavaScript `item.split('.')`. -/
def jsSplitDots (s : String) : List (List Char) :=
  s.data.splitOn '.'

/-- `quoteIdentifiers(identifiers)` from the source (lines 273-284): if the
string contains a dot, split at every dot, rejoin everything except the last
part into the head, and quote head and last part separately. -/
def quoteIdentifiers (c : Ctx) (identifiers : String) : String :=
  if jsContainsDot identifiers then
    let parts := jsSplitDots identifiers
    let head := String.mk (List.intercalate ['.'] parts.dropLast)
    let tail := String.mk (parts.getLastD [])
    quoteIdentifier c head ++ "." ++ quoteIdentifier c tail
  else
    quoteIdentifier c identifiers

/-- A table reference passed to `quoteTable`: either a bare name or a
descriptor object with the properties the source reads (`schema`, `tableName`,
`delimiter`, `as`, `name`). -/
structure TableObj where
  schema : Option String
  tableName : String
  delimiter : Option String
  asName : Option String
  nameAttr : Option String
deriving DecidableEq, Repr

inductive TableParam where
  | tstr (s : String)
  | tobj (o : TableObj)
deriving DecidableEq, Repr

/-- The `alias` argument of `quoteTable`: absent/falsy, literally `true`, or an
alias string. -/
inductive AliasArg where
  | aliasNone
  | aliasTrue
  | aliasStr (s : String)
deriving DecidableEq, Repr

/-- `alias = param.as || param.name || param` (source line 298) with
JavaScript `||` truthiness; a plain object with neither property falls back to
the object itself, whose string coercion is `"[object Object]"`.  The result is
`none` exactly when the final value is falsy (the empty string). -/
def deriveAliasVal : TableParam → Option String
  | .tstr s => if s ≠ "" then some s else none
  | .tobj o =>
    match o.asName with
    | some a =>
      if a ≠ "" then some a
      else match o.nameAttr with
           | some n => if n ≠ "" then some n else some "[object Object]"
           | none => some "[object Object]"
    | none =>
      match o.nameAttr with
      | some n => if n ≠ "" then some n else some "[object Object]"
      | none => some "[object Object]"

/-- `quoteTable(param, alias)` from the source (lines 294-325). -/
def quoteTable (c : Ctx) (param : TableParam) (aliasArg : AliasArg) : String :=
  let aliasVal : Option String :=
    match aliasArg with
    | .aliasTrue => deriveAliasVal param
    | .aliasStr s => if s ≠ "" then some s else none
    | .aliasNone => none
  let table : String :=
    match param with
    | .tobj o =>
      if c.supportsSchemas then
        (match o.schema with
         | some sch => if sch ≠ "" then quoteIdentifier c sch ++ "." else ""
         | none => "") ++ quoteIdentifier c o.tableName
      else
        quoteIdentifier c
          ((match o.schema with
            | some sch =>
              if sch ≠ "" then
                sch ++ (match o.delimiter with
                        | some d => if d ≠ "" then d else "."
                        | none => ".")
              else ""
            | none => "") ++ o.tableName)
    | .tstr s => quoteIdentifier c s
  match aliasVal with
  | some a => table ++ " AS " ++ quoteIdentifier c a
  | none => table

/-- The synchronous failures the core can raise. -/
inductive QErr where
  | resolution (modelName : String)
  | typeValidation
  | unknownStructure (rendered : String)
  | unsupportedDialect (d : Dialect)
  | removedFeature
  | jsTypeError (item : String)
deriving DecidableEq, Repr

/-- A JavaScript value reaching `escape`.  `vLiteral` models a
`Utils.SequelizeMethod` literal wrapper carrying raw SQL. -/
inductive Value where
  | vNull
  | vStr (s : String)
  | vInt (n : Int)
  | vBool (b : Bool)
  | vLiteral (s : String)
  | vArr (items : List Value)

/-- JavaScript truthiness of a value (`null`/`undefined`, `0`, `""` and
`false` are falsy; objects and arrays are truthy). -/
def valueTruthy : Value → Bool
  | .vNull => false
  | .vStr s => s ≠ ""
  | .vInt n => n ≠ 0
  | .vBool b => b
  | .vLiteral _ => true
  | .vArr _ => true

/-- Single-quote a string literal, doubling interior single quotes. -/
def escapeStringLit (s : String) : String :=
  "'" ++ String.join (s.data.map (fun ch => if ch = '\'' then "''" else String.mk [ch])) ++ "'"

mutual

/-- Modelled from the spec: the delegated primitive `SqlString.escape(value,
timezone, dialect)` is outside the excerpt; the spec describes it as the
"dialect- and timezone-aware conversion of primitive values (numbers, booleans,
text, dates, byte sequences, null) into SQL literal text with correct
quote/backslash escaping".  Strings become single-quoted literals with interior
quotes doubled, `null` becomes the `NULL` literal, and sequences are
comma-joined. -/
def sqlStringEscape : Value → String
  | .vNull => "NULL"
  | .vStr s => escapeStringLit s
  | .vInt n => toString n
  | .vBool b => cond b "true" "false"
  | .vLiteral s => escapeStringLit s
  | .vArr items => sqlStringEscapeList items

def sqlStringEscapeList : List Value → String
  | [] => ""
  | [v] => sqlStringEscape v
  | v :: rest => sqlStringEscape v ++ ", " ++ sqlStringEscapeList rest

end

/-- An external field-type descriptor: optional validator (`false` models a
thrown validation error), optional custom stringifier, and the type's `escape`
property (`escapeProp = false` means the stringifier's output is already fully
escaped).  The stringifier receives a context object in the source (bound
low-level escaper, field, timezone, operation); that context does not affect
which branch `escape` takes, so the stringifier is modelled as a plain
function on the value. -/
structure FieldType where
  validateFn : Option (Value → Bool)
  stringifyFn : Option (Value → String)
  escapeProp : Bool

structure Field where
  type? : Option FieldType

/-- The `options` argument of `escape`. -/
structure EscOpts where
  isList : Bool
  operation : Option String
deriving DecidableEq, Repr

def isVArr : Value → Bool
  | .vArr _ => true
  | _ => false

def vArrItems : Value → List Value
  | .vArr items => items
  | _ => []

/-- The `for (const item of value) field.type.validate(item, options)` loop. -/
def validateEach (f : Value → Bool) : List Value → Except QErr Unit
  | [] => .ok ()
  | v :: rest => if f v then validateEach f rest else .error .typeValidation

/-- The validation step of `escape` (source lines 339-347). -/
def runValidation (validateFn : Option (Value → Bool)) (v : Value) (opts : EscOpts) :
    Except QErr Unit :=
  match validateFn with
  | none => .ok ()
  | some f =>
    if opts.isList ∧ isVArr v then validateEach f (vArrItems v)
    else if f v then .ok () else .error .typeValidation

/-- `escape(value, field, options)` from the source (lines 331-365).  A present
non-literal value with a typed field is validated only when type validation is
enabled, the type has a validator, and the value is truthy; a custom
stringifier is then applied, its output returned verbatim when the type
declares `escape === false` and otherwise passed to the generic escaper. -/
def escape (c : Ctx) (value : Value) (field? : Option Field) (opts : EscOpts) :
    Except QErr String :=
  match value with
  | .vNull => .ok (sqlStringEscape .vNull)
  | .vLiteral s => .ok s
  | v =>
    match field? with
    | some field =>
      match field.type? with
      | some ty =>
        match (if c.typeValidation ∧ ty.validateFn.isSome ∧ valueTruthy v then
                 runValidation ty.validateFn v opts
               else .ok ()) with
        | .error e => .error e
        | .ok _ =>
          match ty.stringifyFn with
          | some st =>
            let stringified := st v
            if ty.escapeProp = false then .ok stringified
            else .ok (sqlStringEscape (.vStr stringified))
          | none => .ok (sqlStringEscape v)
      | none => .ok (sqlStringEscape v)
    | none => .ok (sqlStringEscape v)

/-- The `path` argument of `jsonPathExtractionQuery`: a dotted string or an
already-split list of segments. -/
inductive PathArg where
  | pstr (s : String)
  | plist (segs : List String)
deriving DecidableEq, Repr

/-- Modelled from the spec: lodash's `_.toPath` is outside the excerpt; the
spec says the "path is normalized into an ordered list of segments first".  A
dotted string is split at its dots; a list is taken as given. -/
def toPathSegs : PathArg → List String
  | .pstr s => (jsSplitDots s).map String.mk
  | .plist segs => segs

/-- Modelled from the spec: `Utils.addTicks(subPath, '"')` is outside the
excerpt; the spec says each sub path is "individually double-quote-wrapped". -/
def addTicks (s : String) (tick : String) : String :=
  tick ++ s ++ tick

/-- The SQLite path rewrite `.replace(/\.(\d+)(?:(?=\.)|$)/g, ...)` (source
line 402), character by character: a dot followed by a maximal nonempty digit
run that ends the string or is followed by another dot becomes the bracketed
digit run; the scan resumes after the consumed digits (the lookahead consumes
nothing). -/
def numericBracketsAux : List Char → List Char
  | [] => []
  | '.' :: rest =>
    let digits := rest.takeWhile (fun ch => ch.isDigit)
    let after := rest.dropWhile (fun ch => ch.isDigit)
    if digits ≠ [] ∧ (after = [] ∨ after.headD ' ' = '.') then
      '[' :: (digits ++ ']' :: numericBracketsAux after)
    else
      '.' :: numericBracketsAux rest
  | ch :: rest => ch :: numericBracketsAux rest
termination_by l => l.length
decreasing_by
  · exact Nat.lt_succ_of_le ((List.dropWhile_sublist _).length_le)
  · exact Nat.lt_succ_self _
  · exact Nat.lt_succ_self _

def numericBrackets (s : String) : String :=
  String.mk (numericBracketsAux s.data)

/-- `jsonPathExtractionQuery(column, path)` from the source (lines 379-421). -/
def jsonPathExtractionQuery (c : Ctx) (column : String) (path : PathArg) :
    Except QErr String :=
  let paths := toPathSegs path
  match c.dialect with
  | .mysql =>
    let ticked := paths.map (fun subPath => addTicks subPath "\"")
    let pathStr := jsJoin "." ("$" :: ticked)
    let quotedColumn :=
      if isIdentifierQuotedHelper column then column else quoteIdentifier c column
    .ok ("(" ++ quotedColumn ++ "->>'" ++ pathStr ++ "')")
  | .sqlite =>
    match escape c (.vStr (numericBrackets (jsJoin "." ("$" :: paths)))) none ⟨false, none⟩ with
    | .error e => .error e
    | .ok pathStr =>
      let quotedColumn :=
        if isIdentifierQuotedHelper column then column else quoteIdentifier c column
      .ok ("json_extract(" ++ quotedColumn ++ ", " ++ pathStr ++ ")")
  | .postgres =>
    match escape c (.vStr ("\x7b" ++ jsJoin "," paths ++ "\x7d")) none ⟨false, none⟩ with
    | .error e => .error e
    | .ok pathStr =>
      let quotedColumn :=
        if isIdentifierQuotedHelper column then column else quoteIdentifier c column
      .ok ("(" ++ quotedColumn ++ "#>>" ++ pathStr ++ ")")
  | d => .error (.unsupportedDialect d)

/-- A quote target, the polymorphic input of `quote`: a plain string, a path
(array) of further targets, a model class, a `{model, as}` object, an
association object, a literal wrapper, a raw model-attribute reference
(`_modelAttribute`), a plain object whose `raw` property is the given string,
or anything unrecognized. -/
inductive QT where
  | str (s : String)
  | arr (items : List QT)
  | model (name : String)
  | modelAs (name : String) (asArg : Option String)
  | assoc (a : Association)
  | literal (s : String)
  | modelAttr (modelName : String) (fieldName : String)
  | plainRaw (raw : String)
  | unknown (rendered : String)

/-- JavaScript truthiness of a quote-target element (`!previous` on source
line 127): only the empty string is falsy among the shapes modelled here. -/
def qtTruthy : QT → Bool
  | .str s => s ≠ ""
  | _ => true

/-- A crude `util.inspect` for the unknown-structure diagnostic. -/
def inspectQT : QT → String
  | .str s => "'" ++ s ++ "'"
  | .arr _ => "[Array]"
  | .model n => "[Model " ++ n ++ "]"
  | .modelAs n _ => "\x7b model: " ++ n ++ " \x7d"
  | .assoc a => "[Association " ++ a.asName ++ "]"
  | .literal s => "[Literal " ++ s ++ "]"
  | .modelAttr m f => "[Col " ++ m ++ "." ++ f ++ "]"
  | .plainRaw r => "\x7b raw: '" ++ r ++ "' \x7d"
  | .unknown rendered => rendered

/-- The recognized direction / null-ordering tokens (source lines 102-111). -/
def validOrderOptions : List String :=
  ["ASC",
   "DESC",
   "ASC NULLS LAST",
   "DESC NULLS LAST",
   "ASC NULLS FIRST",
   "DESC NULLS FIRST",
   "NULLS FIRST",
   "NULLS LAST"]

/-- Modelled from the spec: `Model.getAssociationForAlias(model, alias)` lives
in the model subsystem, outside the excerpt.  The spec describes the lookup as
finding an edge declared on the current model that targets the given model and
matches the given alias; with no alias given, any edge targeting the model
matches. -/
def getAssociationForAlias (pm : ModelDesc) (targetName : String)
    (aliasArg : Option String) : Option Association :=
  (pm.associations.map Prod.snd).find? (fun a =>
    a.targetName == targetName &&
      (match aliasArg with
       | some al => a.asName == al
       | none => true))

/-- `!as` (source line 150): the alias is absent or the empty string. -/
def asFalsyOf : Option String → Bool
  | some a => a == ""
  | none => true

/-- `previousAssociation && previousAssociation.through &&
previousAssociation.through.model === model` (source line 150). -/
def throughMatches (prevAssoc : Option Association) (mname : String) : Bool :=
  match prevAssoc with
  | some pa =>
    match pa.throughModelName with
    | some t => t == mname
    | none => false
  | none => false

/-- Resolution of a model (or `{model, as}`) element against the previous
model (source lines 148-169): a through-model of the previous association
yields a synthesized direct edge aliased by the model's own name; otherwise the
alias-qualified lookup is tried, then the lookup by the model's own name, and
a failure of all three throws. -/
def resolveModelItem (pm : ModelDesc) (prevAssoc : Option Association)
    (mname : String) (asArg : Option String) : Except QErr QT :=
  if asFalsyOf asArg && throughMatches prevAssoc mname then
    .ok (.assoc ⟨pm.name, mname, mname, none⟩)
  else
    match getAssociationForAlias pm mname asArg with
    | some a => .ok (.assoc a)
    | none =>
      match getAssociationForAlias pm mname (some mname) with
      | some a => .ok (.assoc a)
      | none => .error (.resolution mname)

/-- The JSON-attribute branch for a dotted string element (source lines
187-206).  The attribute record of the first segment is dereferenced without an
existence check: a missing attribute is a TypeError in JavaScript, modelled as
`QErr.jsTypeError`. -/
def dotBranch (c : Ctx) (pm : ModelDesc) (s : String) : Except QErr QT :=
  if jsContainsDot s ∧ pm.rawAttributesDefined then
    match lookupAttribute pm (((jsSplitDots s).map String.mk).headD "") with
    | none => .error (.jsTypeError s)
    | some attr =>
      if attr.isJSON then
        match jsonPathExtractionQuery c
            (quoteIdentifiers c (pm.name ++ "." ++ attr.field))
            (.plist (((jsSplitDots s).map String.mk).drop 1)) with
        | .error e => .error e
        | .ok extracted => .ok (.literal extracted)
      else .ok (.str s)
  else .ok (.str s)

/-- Rewriting of a string element (source lines 172-208): a direction token at
index > 0 becomes a literal carrying a leading space and the canonical token;
otherwise, with a previous model, an association name becomes the association,
a renamed attribute becomes its physical column, and a dotted string is sent
to the JSON branch. -/
def stringRewrite (c : Ctx) (previousModel : Option ModelDesc) (idx : Nat)
    (s : String) : Except QErr QT :=
  if idx > 0 ∧ validOrderOptions.indexOf (jsToUpper s) ≠ validOrderOptions.length then
    .ok (.literal (" " ++ validOrderOptions.getD (validOrderOptions.indexOf (jsToUpper s)) ""))
  else
    match previousModel with
    | none => .ok (.str s)
    | some pm =>
      match (if pm.associationsDefined then lookupAssociation pm s else none) with
      | some a => .ok (.assoc a)
      | none =>
        match (if pm.rawAttributesDefined then lookupAttribute pm s else none) with
        | some attr =>
          if s ≠ attr.field then .ok (.str attr.field)
          else dotBranch c pm s
        | none => dotBranch c pm s

/-- `!previous` (source line 127): at index 0 there is no previous element. -/
def prevTruthyOf : Option QT → Bool
  | some p => qtTruthy p
  | none => false

/-- `previousAssociation` (source lines 129-131): set only when the previous
element is truthy and an association. -/
def prevAssocOf : Option QT → Option Association
  | some p =>
    if qtTruthy p then
      match p with
      | .assoc a => some a
      | _ => none
    else none
  | none => none

/-- `previousModel` (source lines 126-132): the parent when the previous
element is absent or falsy and a parent was given, else the target of the
previous association. -/
def prevModelOf (c : Ctx) (parent? : Option ModelDesc) (prev? : Option QT) :
    Option ModelDesc :=
  if !prevTruthyOf prev? ∧ parent?.isSome then parent?
  else
    match prevAssocOf prev? with
    | some a => lookupModel c a.targetName
    | none => none

/-- One iteration of the rewrite pass (source lines 121-211): derive the
previous association and previous model from the already-rewritten previous
element (falling back to the parent when the previous element is absent or
falsy), resolve model elements to associations, then rewrite string
elements. -/
def rewriteStep (c : Ctx) (parent? : Option ModelDesc) (prev? : Option QT)
    (idx : Nat) (item : QT) : Except QErr QT :=
  match (match prevModelOf c parent? prev? with
         | some pm =>
           match item with
           | .model mname => resolveModelItem pm (prevAssocOf prev?) mname none
           | .modelAs mname asArg => resolveModelItem pm (prevAssocOf prev?) mname asArg
           | other => .ok other
         | none => .ok item) with
  | .error e => .error e
  | .ok item1 =>
    match item1 with
    | .str s => stringRewrite c (prevModelOf c parent? prev?) idx s
    | other => .ok other

/-- The whole in-place rewrite pass (`collection.forEach`, source lines
121-211), as a fold producing the rewritten sequence; each step sees the
already-rewritten previous element, exactly as the in-place mutation does. -/
def rewriteGo (c : Ctx) (parent? : Option ModelDesc) (prev? : Option QT)
    (idx : Nat) : List QT → Except QErr (List QT)
  | [] => .ok []
  | item :: rest =>
    match rewriteStep c parent? prev? idx item with
    | .error e => .error e
    | .ok item' =>
      match rewriteGo c parent? (some item') (idx + 1) rest with
      | .error e => .error e
      | .ok rest' => .ok (item' :: rest')

/-- `tableNames[i] = item.as` on a sparse JavaScript array: pad with holes up
to index `i`, then set. -/
def setSparse (tn : List (Option String)) (i : Nat) (v : String) :
    List (Option String) :=
  tn ++ List.replicate (i - tn.length) none ++ [some v]

/-- Elements that break the prefix loop (source line 221): strings, raw
model-attribute references and `SequelizeMethod`s (literals). -/
def isBoundaryQT : QT → Bool
  | .str _ => true
  | .modelAttr _ _ => true
  | .literal _ => true
  | _ => false

/-- The prefix loop (source lines 219-226): run `i` from 0 while `i < stop`
(`stop` being `collection.length - 1`), break at the first boundary element,
and record the alias of every association element at its index in the sparse
`tableNames` array. -/
def scanLoop (stop : Nat) : Nat → List QT → List (Option String) →
    Nat × List (Option String)
  | i, [], tn => (i, tn)
  | i, item :: rest, tn =>
    if i < stop then
      if isBoundaryQT item then (i, tn)
      else
        match item with
        | .assoc a => scanLoop stop (i + 1) rest (setSparse tn i a.asName)
        | _ => scanLoop stop (i + 1) rest tn
    else (i, tn)

/-- `tableNames.join(connector)`: holes render as empty strings. -/
def joinSparse (conn : String) (tn : List (Option String)) : String :=
  jsJoin conn (tn.map (fun o => o.getD ""))

mutual

def qtSize : QT → Nat
  | .arr items => 1 + qtSizeList items
  | _ => 1

def qtSizeList : List QT → Nat
  | [] => 0
  | item :: rest => qtSize item + qtSizeList rest

end

theorem qtSize_pos (item : QT) : 1 ≤ qtSize item := by
  cases item <;> simp [qtSize]

theorem qtSize_le_qtSizeList {item : QT} {l : List QT} (h : item ∈ l) :
    qtSize item ≤ qtSizeList l := by
  induction l with
  | nil => cases h
  | cons hd tl ih =>
    rcases List.mem_cons.mp h with rfl | h'
    · simp [qtSizeList]
    · calc qtSize item ≤ qtSizeList tl := ih h'
        _ ≤ qtSize hd + qtSizeList tl := Nat.le_add_left _ _
        _ = qtSizeList (hd :: tl) := by simp [qtSizeList]

theorem dotBranch_size {c pm s out} (h : dotBranch c pm s = .ok out) :
    qtSize out = 1 := by
  unfold dotBranch at h
  split at h
  · split at h
    · cases h
    · split at h
      · split at h
        · cases h
        · cases h; simp [qtSize]
      · cases h; simp [qtSize]
  · cases h; simp [qtSize]

theorem stringRewrite_size {c pmo idx s out}
    (h : stringRewrite c pmo idx s = .ok out) : qtSize out = 1 := by
  unfold stringRewrite at h
  split at h
  · cases h; simp [qtSize]
  · split at h
    · cases h; simp [qtSize]
    · split at h
      · cases h; simp [qtSize]
      · split at h
        · split at h
          · cases h; simp [qtSize]
          · exact dotBranch_size h
        · exact dotBranch_size h

theorem resolveModelItem_size {pm pa mname asArg out}
    (h : resolveModelItem pm pa mname asArg = .ok out) : qtSize out = 1 := by
  unfold resolveModelItem at h
  split at h
  · cases h; simp [qtSize]
  · split at h
    · cases h; simp [qtSize]
    · split at h
      · cases h; simp [qtSize]
      · cases h

theorem rewriteStep_size {c parent? prev? idx} {item out : QT}
    (h : rewriteStep c parent? prev? idx item = .ok out) :
    qtSize out ≤ qtSize item := by
  unfold rewriteStep at h
  split at h
  · cases h
  · rename_i item1 heq1
    split at h
    · rename_i s
      have h1 := stringRewrite_size h
      rw [h1]
      exact qtSize_pos item
    · cases h
      revert heq1
      split
      · split
        · intro heq1
          rw [resolveModelItem_size heq1]
          exact qtSize_pos _
        · intro heq1
          rw [resolveModelItem_size heq1]
          exact qtSize_pos _
        · intro heq1; cases heq1; exact Nat.le_refl _
      · intro heq1; cases heq1; exact Nat.le_refl _

theorem rewriteGo_size {c parent? prev? idx} {l out : List QT}
    (h : rewriteGo c parent? prev? idx l = .ok out) :
    qtSizeList out ≤ qtSizeList l := by
  induction l generalizing prev? idx out with
  | nil => cases h; exact Nat.le_refl _
  | cons hd tl ih =>
    unfold rewriteGo at h
    split at h
    · cases h
    · rename_i hd' heq1
      split at h
      · cases h
      · rename_i tl' heq2
        cases h
        have h1 := rewriteStep_size heq1
        have h2 := ih heq2
        simp only [qtSizeList]
        omega

theorem qtSizeList_drop_le (n : Nat) (l : List QT) :
    qtSizeList (l.drop n) ≤ qtSizeList l := by
  induction l generalizing n with
  | nil => simp [List.drop_nil]
  | cons hd tl ih =>
    cases n with
    | zero => exact Nat.le_refl _
    | succ m =>
      calc qtSizeList ((hd :: tl).drop (m + 1)) = qtSizeList (tl.drop m) := rfl
        _ ≤ qtSizeList tl := ih m
        _ ≤ qtSize hd + qtSizeList tl := Nat.le_add_left _ _
        _ = qtSizeList (hd :: tl) := by simp [qtSizeList]

mutual

/-- `quote(collection, parent, connector)` from the source (lines 100-253):
normalize the connector, quote strings as dotted identifier paths, run the
rewrite pass and the prefix loop on arrays and recursively quote the remaining
elements, turn raw model-attribute references into `table.column`, render
literals verbatim, reject the removed `{raw: …}` form, and fail on anything
else with a diagnostic. -/
def quote (c : Ctx) (collection : QT) (parent? : Option ModelDesc)
    (connector : String) : Except QErr String :=
  match collection with
  | .str s => .ok (quoteIdentifiers c s)
  | .arr items =>
    match hrw : rewriteGo c parent? none 0 items with
    | .error e => .error e
    | .ok items' =>
      quotePost c parent? (if connector = "" then "." else connector) items'
  | .modelAttr mName fName =>
    .ok (quoteTable c (.tstr mName) .aliasNone ++ "." ++ quoteIdentifier c fName)
  | .literal s => .ok s
  | .plainRaw raw =>
    if raw ≠ "" then .error .removedFeature
    else .error (.unknownStructure (inspectQT (.plainRaw raw)))
  | other => .error (.unknownStructure (inspectQT other))
termination_by (qtSize collection, 0)
decreasing_by
  show Prod.Lex (· < ·) (· < ·) (qtSizeList items', 2) (qtSize (QT.arr items), 0)
  apply Prod.Lex.left
  have h1 := rewriteGo_size hrw
  have h2 : qtSize (QT.arr items) = 1 + qtSizeList items := by simp [qtSize]
  omega

/-- The part of the array branch that runs after the rewrite pass (source
lines 213-242): the prefix loop, the joined-and-quoted alias chain or the
parent-name prefix, then the recursive quoting of every element from the break
index on, concatenated without separators. -/
def quotePost (c : Ctx) (parent? : Option ModelDesc) (conn : String)
    (items : List QT) : Except QErr String :=
  quoteList c parent? conn
    (if (scanLoop (items.length - 1) 0 items []).1 > 0 then
       quoteIdentifier c (joinSparse conn (scanLoop (items.length - 1) 0 items []).2) ++ "."
     else if (match items.head? with
              | some (.str _) => true
              | _ => false) && parent?.isSome then
       quoteIdentifier c ((parent?.map (fun p => p.name)).getD "") ++ "."
     else "")
    (items.drop (scanLoop (items.length - 1) 0 items []).1)
termination_by (qtSizeList items, 2)
decreasing_by
  show Prod.Lex (· < ·) (· < ·) (qtSizeList (items.drop (scanLoop (items.length - 1) 0 items []).1), 1)
    (qtSizeList items, 2)
  have h1 := qtSizeList_drop_le (scanLoop (items.length - 1) 0 items []).1 items
  rcases Nat.lt_or_ge (qtSizeList (items.drop (scanLoop (items.length - 1) 0 items []).1))
      (qtSizeList items) with hlt | hge
  · exact Prod.Lex.left _ _ hlt
  · have heq : qtSizeList (items.drop (scanLoop (items.length - 1) 0 items []).1)
        = qtSizeList items := Nat.le_antisymm h1 hge
    rw [heq]
    exact Prod.Lex.right _ (by omega)

/-- `collection.slice(i).forEach(collectionItem => sql += this.quote(...))`
(source lines 238-240). -/
def quoteList (c : Ctx) (parent? : Option ModelDesc) (conn : String)
    (acc : String) : List QT → Except QErr String
  | [] => .ok acc
  | item :: rest =>
    match quote c item parent? conn with
    | .error e => .error e
    | .ok piece => quoteList c parent? conn (acc ++ piece) rest
termination_by items => (qtSizeList items, 1)
decreasing_by
  · show Prod.Lex (· < ·) (· < ·) (qtSize item, 0) (qtSizeList (item :: rest), 1)
    have h1 : qtSize item ≤ qtSizeList (item :: rest) := by
      simp only [qtSizeList]
      exact Nat.le_add_right _ _
    rcases Nat.lt_or_ge (qtSize item) (qtSizeList (item :: rest)) with hlt | hge
    · exact Prod.Lex.left _ _ hlt
    · have heq : qtSize item = qtSizeList (item :: rest) := Nat.le_antisymm h1 hge
      rw [heq]
      exact Prod.Lex.right _ (by omega)
  · show Prod.Lex (· < ·) (· < ·) (qtSizeList rest, 1) (qtSizeList (item :: rest), 1)
    apply Prod.Lex.left
    have h2 := qtSize_pos item
    simp [qtSizeList]
    omega

end

/-!
## Unfolding lemmas for the well-founded `quote` recursion
-/

theorem quote_str_eq (c : Ctx) (p : Option ModelDesc) (conn s : String) :
    quote c (.str s) p conn = .ok (quoteIdentifiers c s) := by
  rw [quote.eq_def]

theorem quote_literal_eq (c : Ctx) (p : Option ModelDesc) (conn s : String) :
    quote c (.literal s) p conn = .ok s := by
  rw [quote.eq_def]

theorem quote_modelAttr_eq (c : Ctx) (p : Option ModelDesc) (conn mName fName : String) :
    quote c (.modelAttr mName fName) p conn
      = .ok (quoteTable c (.tstr mName) .aliasNone ++ "." ++ quoteIdentifier c fName) := by
  rw [quote.eq_def]

theorem quote_plainRaw_eq (c : Ctx) (p : Option ModelDesc) (conn raw : String) :
    quote c (.plainRaw raw) p conn
      = (if raw ≠ "" then .error .removedFeature
         else .error (.unknownStructure (inspectQT (.plainRaw raw)))) := by
  rw [quote.eq_def]

theorem quote_arr_ok (c : Ctx) (p : Option ModelDesc) (conn : String)
    (items items2 : List QT) (h : rewriteGo c p none 0 items = .ok items2) :
    quote c (.arr items) p conn
      = quotePost c p (if conn = "" then "." else conn) items2 := by
  rw [quote.eq_def]
  split
  · rename_i heq; cases heq
  · rename_i items3 heq
    cases heq
    split
    · rename_i e heq2; rw [heq2] at h; cases h
    · rename_i items4 heq2
      rw [heq2] at h
      cases h
      rfl
  · rename_i heq; cases heq
  · rename_i heq; cases heq
  · rename_i heq; cases heq
  · rename_i h1 h2 h3 h4 h5
    exact absurd rfl (h2 items)

theorem quote_arr_err (c : Ctx) (p : Option ModelDesc) (conn : String)
    (items : List QT) (e : QErr) (h : rewriteGo c p none 0 items = .error e) :
    quote c (.arr items) p conn = .error e := by
  rw [quote.eq_def]
  split
  · rename_i heq; cases heq
  · rename_i items3 heq
    cases heq
    split
    · rename_i e2 heq2; rw [heq2] at h; cases h; rfl
    · rename_i items4 heq2; rw [heq2] at h; cases h
  · rename_i heq; cases heq
  · rename_i heq; cases heq
  · rename_i heq; cases heq
  · rename_i h1 h2 h3 h4 h5
    exact absurd rfl (h2 items)

theorem quoteList_nil_eq (c : Ctx) (p : Option ModelDesc) (conn acc : String) :
    quoteList c p conn acc [] = .ok acc := by
  rw [quoteList.eq_def]

theorem quoteList_cons_eq (c : Ctx) (p : Option ModelDesc) (conn acc : String)
    (item : QT) (rest : List QT) :
    quoteList c p conn acc (item :: rest)
      = (match quote c item p conn with
         | .error e => .error e
         | .ok piece => quoteList c p conn (acc ++ piece) rest) := by
  rw [quoteList.eq_def]

theorem quotePost_eq (c : Ctx) (p : Option ModelDesc) (conn : String) (items : List QT) :
    quotePost c p conn items
      = quoteList c p conn
          (if (scanLoop (items.length - 1) 0 items []).1 > 0 then
             quoteIdentifier c (joinSparse conn (scanLoop (items.length - 1) 0 items []).2) ++ "."
           else if (match items.head? with
                    | some (.str _) => true
                    | _ => false) && p.isSome then
             quoteIdentifier c ((p.map (fun m => m.name)).getD "") ++ "."
           else "")
          (items.drop (scanLoop (items.length - 1) 0 items []).1) := by
  rw [quotePost.eq_def]

/-!
## Concrete fixtures

A small association graph matching the scenarios of the specification: model
`A` declares an association named `"posts"` aliased `"posts"` targeting model
`B`; `B` has a plain `title` attribute.  One context per dialect, quoting
enabled, plus a postgres context with identifier quoting globally disabled.
-/

def modelB : ModelDesc :=
  ⟨"B", true, [], true, [("title", ⟨"title", false⟩)]⟩

def postsAssoc : Association := ⟨"A", "B", "posts", none⟩

def modelA : ModelDesc :=
  ⟨"A", true, [("posts", postsAssoc)], true, []⟩

def pgCtx : Ctx := ⟨.postgres, true, true, false, [modelA, modelB]⟩

def mysqlCtx : Ctx := ⟨.mysql, true, false, false, []⟩

def sqliteCtx : Ctx := ⟨.sqlite, true, false, false, []⟩

def pgNoQuoteCtx : Ctx := ⟨.postgres, false, true, false, []⟩

/-!
## Claims
-/

/-- C1: for any model `A` declaring an association named `"posts"` aliased
`"posts"` targeting a model `B` (on which `"title"` is not shadowed by an
association or a renamed attribute), normalizing the path
`["posts", "title"]` with parent model `A` under the double-quote dialect with
quoting enabled yields exactly `"posts"."title"`: the association's alias
quoted as one identifier, a dot, then the quoted column; in particular so for
the concrete fixture models. -/
theorem c1_association_path_yields_alias_dot_column :
    (∀ (c : Ctx) (mA mB : ModelDesc) (e : Association),
       c.dialect = .postgres → c.quoteIdentifiersOption = true →
       mA.associationsDefined = true →
       lookupAssociation mA "posts" = some e →
       e.asName = "posts" → e.targetName = mB.name →
       lookupModel c mB.name = some mB →
       (mB.associationsDefined = true → lookupAssociation mB "title" = none) →
       (∀ a, lookupAttribute mB "title" = some a → a.field = "title") →
       quote c (.arr [.str "posts", .str "title"]) (some mA) "."
         = .ok "\"posts\".\"title\"")
    ∧ quote pgCtx (.arr [.str "posts", .str "title"]) (some modelA) "."
        = .ok "\"posts\".\"title\"" := by
  constructor
  · intro c mA mB e hdial hopt hAdef hAassoc hase htgt hBmod hBassoc hBattr
    have hqi : ∀ s : String, quoteIdentifier c s = "\"" ++ s ++ "\"" := by
      intro s
      unfold quoteIdentifier quoteIdentifierForce quoteIdentifierHelper
      rw [hdial, hopt]
      rfl
    have hpm0 : prevModelOf c (some mA) none = some mA := rfl
    have hstep0 : rewriteStep c (some mA) none 0 (.str "posts") = .ok (.assoc e) := by
      unfold rewriteStep
      simp only [hpm0]
      unfold stringRewrite
      rw [if_neg (by simp)]
      simp [hAdef, hAassoc]
    have hdotB : dotBranch c mB "title" = .ok (.str "title") := by
      unfold dotBranch
      rw [if_neg (fun h => absurd h.1 (by decide))]
    have hpm1 : prevModelOf c (some mA) (some (.assoc e)) = some mB := by
      show lookupModel c e.targetName = some mB
      rw [htgt, hBmod]
    have hstep1 : rewriteStep c (some mA) (some (.assoc e)) 1 (.str "title")
        = .ok (.str "title") := by
      unfold rewriteStep
      simp only [hpm1]
      unfold stringRewrite
      rw [if_neg (by decide)]
      have hnoassoc : (if mB.associationsDefined = true
          then lookupAssociation mB "title" else none) = none := by
        cases hbd : mB.associationsDefined
        · rfl
        · simp [hBassoc hbd]
      show (match (if mB.associationsDefined = true
              then lookupAssociation mB "title" else none) with
        | some a => Except.ok (QT.assoc a)
        | none =>
          match (if mB.rawAttributesDefined = true
              then lookupAttribute mB "title" else none) with
          | some attr =>
            if "title" ≠ attr.field then Except.ok (QT.str attr.field)
            else dotBranch c mB "title"
          | none => dotBranch c mB "title") = Except.ok (QT.str "title")
      rw [hnoassoc]
      cases hbr : mB.rawAttributesDefined with
      | false => simp [hdotB]
      | true =>
        simp only [if_true]
        cases hat : lookupAttribute mB "title" with
        | none => simp [hat, hdotB]
        | some a =>
          have haf := hBattr a hat
          simp [hat, haf, hdotB]
    have hgo : rewriteGo c (some mA) none 0 [.str "posts", .str "title"]
        = .ok [.assoc e, .str "title"] := by
      simp only [rewriteGo, hstep0, hstep1]
    rw [quote_arr_ok c (some mA) "." _ _ hgo]
    show quotePost c (some mA) "." [.assoc e, .str "title"] = _
    rw [quotePost_eq]
    have hscan : scanLoop (([QT.assoc e, QT.str "title"] : List QT).length - 1) 0
        [QT.assoc e, QT.str "title"] [] = (1, [some e.asName]) := rfl
    rw [hscan]
    rw [if_pos (by simp)]
    show quoteList c (some mA) "."
        (quoteIdentifier c (joinSparse "." [some e.asName]) ++ ".")
        [QT.str "title"] = _
    rw [show joinSparse "." [some e.asName] = e.asName from rfl]
    rw [hase, hqi "posts"]
    rw [quoteList_cons_eq, quote_str_eq]
    rw [show quoteIdentifiers c "title" = quoteIdentifier c "title" by
      unfold quoteIdentifiers
      rw [if_neg (by decide)]]
    rw [hqi "title"]
    show quoteList c (some mA) "."
        ("\"" ++ "posts" ++ "\"" ++ "." ++ ("\"" ++ "title" ++ "\"")) []
        = .ok "\"posts\".\"title\""
    rw [quoteList_nil_eq]
    rfl
  · rw [quote_arr_ok pgCtx (some modelA) "." [.str "posts", .str "title"]
        [.assoc postsAssoc, .str "title"] (by rfl)]
    rw [quotePost_eq]
    show quoteList pgCtx (some modelA) "." "\"posts\"." [QT.str "title"]
        = .ok "\"posts\".\"title\""
    rw [quoteList_cons_eq, quote_str_eq]
    show quoteList pgCtx (some modelA) "." ("\"posts\"." ++ quoteIdentifiers pgCtx "title") []
        = .ok "\"posts\".\"title\""
    rw [quoteList_nil_eq]
    rfl

/-- C1 witness: the general clause of
`c1_association_path_yields_alias_dot_column` applied to the concrete fixture
models `A` and `B`. -/
theorem c1_association_path_witness :
    quote pgCtx (.arr [.str "posts", .str "title"]) (some modelA) "."
      = .ok "\"posts\".\"title\"" :=
  c1_association_path_yields_alias_dot_column.1 pgCtx modelA modelB postsAssoc
    rfl rfl rfl rfl rfl rfl rfl (fun _ => rfl) (fun a ha => by cases ha; rfl)

/-- C7: a string element at index greater than 0 that case-insensitively
matches one of the 8 direction/null-ordering tokens is rewritten to a literal
token carrying a space and that exact (canonical upper-case) text; normalizing
`["title", "DESC"]` yields `"title" DESC` and normalizing `["title", "desc"]`
yields the same output. -/
theorem c7_direction_token_rewrite :
    (∀ (c : Ctx) (parent? : Option ModelDesc) (prev? : Option QT) (idx : Nat)
       (s : String), idx > 0 → jsToUpper s ∈ validOrderOptions →
       rewriteStep c parent? prev? idx (.str s) = .ok (.literal (" " ++ jsToUpper s)))
    ∧ quote pgCtx (.arr [.str "title", .str "DESC"]) none "."
        = .ok "\"title\" DESC"
    ∧ quote pgCtx (.arr [.str "title", .str "desc"]) none "."
        = .ok "\"title\" DESC" := by
  refine ⟨?_, ?_, ?_⟩
  · intro c parent? prev? idx s hidx hmem
    unfold rewriteStep
    have hdir : ∀ pmo : Option ModelDesc,
        stringRewrite c pmo idx s = .ok (.literal (" " ++ jsToUpper s)) := by
      intro pmo
      unfold stringRewrite
      simp only [validOrderOptions, List.mem_cons, List.not_mem_nil, or_false] at hmem
      rcases hmem with h | h | h | h | h | h | h | h <;>
        (rw [h]
         rw [if_pos (And.intro hidx (by decide))]
         rfl)
    cases hpm : prevModelOf c parent? prev? with
    | none => simp only [hpm]; exact hdir none
    | some pm => simp only [hpm]; exact hdir (some pm)
  · rw [quote_arr_ok pgCtx none "." [.str "title", .str "DESC"]
        [.str "title", .literal " DESC"] (by rfl)]
    rw [quotePost_eq]
    show quoteList pgCtx none "." "" [QT.str "title", QT.literal " DESC"]
        = .ok "\"title\" DESC"
    rw [quoteList_cons_eq, quote_str_eq]
    show quoteList pgCtx none "." ("" ++ quoteIdentifiers pgCtx "title") [QT.literal " DESC"]
        = .ok "\"title\" DESC"
    rw [quoteList_cons_eq, quote_literal_eq]
    show quoteList pgCtx none "."
        (("" ++ quoteIdentifiers pgCtx "title") ++ " DESC") [] = .ok "\"title\" DESC"
    rw [quoteList_nil_eq]
    rfl
  · rw [quote_arr_ok pgCtx none "." [.str "title", .str "desc"]
        [.str "title", .literal " DESC"] (by rfl)]
    rw [quotePost_eq]
    show quoteList pgCtx none "." "" [QT.str "title", QT.literal " DESC"]
        = .ok "\"title\" DESC"
    rw [quoteList_cons_eq, quote_str_eq]
    show quoteList pgCtx none "." ("" ++ quoteIdentifiers pgCtx "title") [QT.literal " DESC"]
        = .ok "\"title\" DESC"
    rw [quoteList_cons_eq, quote_literal_eq]
    show quoteList pgCtx none "."
        (("" ++ quoteIdentifiers pgCtx "title") ++ " DESC") [] = .ok "\"title\" DESC"
    rw [quoteList_nil_eq]
    rfl

/-- C7 witness: the general part of `c7_direction_token_rewrite` applied at a
concrete lower-case token at index 1. -/
theorem c7_direction_token_rewrite_witness :
    rewriteStep pgCtx none (some (.str "title")) 1 (.str "desc")
      = .ok (.literal " DESC") :=
  c7_direction_token_rewrite.1 pgCtx none (some (.str "title")) 1 "desc"
    (by decide) (by decide)

/-- C8 counterexample: a plain object whose `raw` property is set to the empty
string (set, but falsy) is rejected with the unknown-structure diagnostic, not
with the removed-feature error the claim requires for every object with `raw`
set. -/
theorem c8_raw_falsy_counterexample :
    quote pgCtx (.plainRaw "") none "."
        = .error (.unknownStructure "\x7b raw: '' \x7d")
    ∧ QErr.unknownStructure "\x7b raw: '' \x7d" ≠ QErr.removedFeature := by
  constructor
  · rw [quote_plainRaw_eq]
    rfl
  · decide

/-- C8 (amended): for every plain object whose `raw` property is set to a
truthy value, and for every dialect profile, normalization fails with the
removed-feature error; with `raw` set but falsy it still produces no output,
failing with the unknown-structure error instead. -/
theorem c8_raw_object_rejected :
    (∀ (c : Ctx) (p : Option ModelDesc) (conn raw : String), raw ≠ "" →
       quote c (.plainRaw raw) p conn = .error .removedFeature)
    ∧ (∀ (c : Ctx) (p : Option ModelDesc) (conn : String),
       quote c (.plainRaw "") p conn
         = .error (.unknownStructure (inspectQT (.plainRaw "")))) := by
  constructor
  · intro c p conn raw hraw
    rw [quote_plainRaw_eq]
    simp [hraw]
  · intro c p conn
    rw [quote_plainRaw_eq]
    simp

/-- C8 witness: `c8_raw_object_rejected` applied to `{raw: "anything"}` under
two different dialect profiles. -/
theorem c8_raw_object_rejected_witness :
    quote pgCtx (.plainRaw "anything") none "." = .error .removedFeature
    ∧ quote mysqlCtx (.plainRaw "anything") none "." = .error .removedFeature :=
  ⟨c8_raw_object_rejected.1 pgCtx none "." "anything" (by decide),
   c8_raw_object_rejected.1 mysqlCtx none "." "anything" (by decide)⟩

/-- The SQLite rewrite of the concrete path of claim C2. -/
theorem numericBrackets_example : numericBrackets "$.a.0.b" = "$.a[0].b" := by
  simp [numericBrackets, numericBracketsAux]

/-- C2 counterexample: under the mysql dialect with the default profile the
column expression `data` is quoted (it is not already quoted), so the produced
SQL is `(\`data\`->>'$."a"."0"."b"')`, not the claimed `(data->>'$."a"."0"."b"')`
with the column left bare. -/
theorem c2_column_quoting_counterexample :
    jsonPathExtractionQuery mysqlCtx "data" (.pstr "a.0.b")
        = .ok "(`data`->>'$.\"a\".\"0\".\"b\"')"
    ∧ (Except.ok "(`data`->>'$.\"a\".\"0\".\"b\"')" : Except QErr String)
        ≠ .ok "(data->>'$.\"a\".\"0\".\"b\"')" := by
  refine ⟨rfl, ?_⟩
  intro h
  have h2 := Except.ok.inj h
  simp at h2

/-- C2 (amended): for column expression `data` and path `a.0.b`,
`jsonPathExtractionQuery` returns `(\`data\`->>'$."a"."0"."b"')` under mysql,
`json_extract(\`data\`, '$.a[0].b')` under sqlite (the purely numeric segment
rewritten to bracket form and the path string escaped as a literal), and
`("data"#>>'\x7ba,0,b\x7d')` under postgres — the column expression being
quoted as an identifier in each; a column expression that is already quoted is
used verbatim in every dialect. -/
theorem c2_json_path_compilation :
    jsonPathExtractionQuery mysqlCtx "data" (.pstr "a.0.b")
        = .ok "(`data`->>'$.\"a\".\"0\".\"b\"')"
    ∧ jsonPathExtractionQuery sqliteCtx "data" (.pstr "a.0.b")
        = .ok "json_extract(`data`, '$.a[0].b')"
    ∧ jsonPathExtractionQuery pgCtx "data" (.pstr "a.0.b")
        = .ok "(\"data\"#>>'\x7ba,0,b\x7d')"
    ∧ (∀ (c : Ctx) (col : String), isIdentifierQuotedHelper col = true →
         c.dialect = .mysql →
         jsonPathExtractionQuery c col (.pstr "a.0.b")
           = .ok ("(" ++ col ++ "->>'$.\"a\".\"0\".\"b\"')"))
    ∧ (∀ (c : Ctx) (col : String), isIdentifierQuotedHelper col = true →
         c.dialect = .sqlite →
         jsonPathExtractionQuery c col (.pstr "a.0.b")
           = .ok ("json_extract(" ++ col ++ ", '$.a[0].b')"))
    ∧ (∀ (c : Ctx) (col : String), isIdentifierQuotedHelper col = true →
         c.dialect = .postgres →
         jsonPathExtractionQuery c col (.pstr "a.0.b")
           = .ok ("(" ++ col ++ "#>>'\x7ba,0,b\x7d')")) := by
  have hnb : numericBrackets (jsJoin "." ("$" :: toPathSegs (.pstr "a.0.b")))
      = "$.a[0].b" := numericBrackets_example
  refine ⟨rfl, ?_, rfl, ?_, ?_, ?_⟩
  · simp only [jsonPathExtractionQuery]
    rw [hnb]
    rfl
  · intro c col hq hd
    simp only [jsonPathExtractionQuery, hd]
    rw [if_pos hq]
    rw [show jsJoin "." ("$" :: List.map (fun subPath => addTicks subPath "\"")
          (toPathSegs (PathArg.pstr "a.0.b"))) = "$.\"a\".\"0\".\"b\"" from rfl]
    simp [String.append_assoc]
  · intro c col hq hd
    simp only [jsonPathExtractionQuery, hd]
    rw [hnb]
    rw [show escape c (.vStr "$.a[0].b") none ⟨false, none⟩
        = .ok "'$.a[0].b'" from rfl]
    simp only []
    rw [if_pos hq]
    simp [String.append_assoc]
  · intro c col hq hd
    simp only [jsonPathExtractionQuery, hd]
    rw [show escape c (.vStr ("\x7b" ++ jsJoin "," (toPathSegs (.pstr "a.0.b")) ++ "\x7d"))
          none ⟨false, none⟩
        = .ok "'\x7ba,0,b\x7d'" from rfl]
    simp only []
    rw [if_pos hq]
    simp [String.append_assoc]

/-- C2 witness: the already-quoted-column clauses of `c2_json_path_compilation`
applied to a pre-quoted column under all three dialects. -/
theorem c2_json_path_compilation_witness :
    jsonPathExtractionQuery mysqlCtx "`data`" (.pstr "a.0.b")
        = .ok "(`data`->>'$.\"a\".\"0\".\"b\"')"
    ∧ jsonPathExtractionQuery sqliteCtx "`data`" (.pstr "a.0.b")
        = .ok "json_extract(`data`, '$.a[0].b')"
    ∧ jsonPathExtractionQuery pgCtx "\"data\"" (.pstr "a.0.b")
        = .ok "(\"data\"#>>'\x7ba,0,b\x7d')" :=
  ⟨c2_json_path_compilation.2.2.2.1 mysqlCtx "`data`" (by decide) rfl,
   c2_json_path_compilation.2.2.2.2.1 sqliteCtx "`data`" (by decide) rfl,
   c2_json_path_compilation.2.2.2.2.2 pgCtx "\"data\"" (by decide) rfl⟩

/-- Wrapping a string between two copies of the character `q` yields a string
that `wrappedIn` recognises as wrapped in `q`. -/
theorem wrappedIn_wrap (q : Char) (x : String) :
    wrappedIn (⟨[q]⟩ ++ x ++ ⟨[q]⟩) q = true := by
  unfold wrappedIn
  have hd : ((⟨[q]⟩ : String) ++ x ++ (⟨[q]⟩ : String)).data = q :: (x.data ++ [q]) := by
    simp [String.data_append]
  rw [hd]
  simp [List.getLast?_concat]

/-- C3 counterexample: under a profile with identifier quoting globally
disabled, `quoteIdentifier` returns the non-empty identifier `a` unwrapped, and
`isIdentifierQuoted` does not recognise it as quoted. -/
theorem c3_disabled_quoting_counterexample :
    ("a" ≠ "")
    ∧ isIdentifierQuotedHelper (quoteIdentifier pgNoQuoteCtx "a") = false := by
  exact ⟨by decide, by decide⟩

/-- C3 (amended): for every non-empty identifier and every dialect profile on
which identifier quoting is enabled, `isIdentifierQuoted ∘ quoteIdentifier` is
true; with quoting globally disabled the same holds whenever `force` is set. -/
theorem c3_quote_then_is_quoted :
    (∀ (c : Ctx) (x : String), x ≠ "" → c.quoteIdentifiersOption = true →
       isIdentifierQuotedHelper (quoteIdentifier c x) = true)
    ∧ (∀ (c : Ctx) (x : String), x ≠ "" →
       isIdentifierQuotedHelper (quoteIdentifierForce c x true) = true) := by
  have main : ∀ (c : Ctx) (x : String) (force : Bool),
      (c.quoteIdentifiersOption || force) = true →
      isIdentifierQuotedHelper (quoteIdentifierHelper c.dialect x force c.quoteIdentifiersOption) = true := by
    intro c x force hcond
    unfold quoteIdentifierHelper
    rw [if_pos hcond]
    unfold isIdentifierQuotedHelper
    cases hdl : c.dialect
    all_goals
      simp only [dialectQuoteChar]
    · rw [show wrappedIn ("`" ++ x ++ "`") backtickChar = true from wrappedIn_wrap backtickChar x]
      simp
    · rw [show wrappedIn ("`" ++ x ++ "`") backtickChar = true from wrappedIn_wrap backtickChar x]
      simp
    · rw [show wrappedIn ("\"" ++ x ++ "\"") '"' = true from wrappedIn_wrap '"' x]
      simp
    · rw [show wrappedIn ("\"" ++ x ++ "\"") '"' = true from wrappedIn_wrap '"' x]
      simp
  constructor
  · intro c x hx hopt
    unfold quoteIdentifier quoteIdentifierForce
    exact main c x false (by rw [hopt]; rfl)
  · intro c x hx
    unfold quoteIdentifierForce
    exact main c x true (by simp)

/-- C3 witness: `c3_quote_then_is_quoted` applied at the identifier `a` under
an enabled profile, and with `force` under the disabled profile. -/
theorem c3_quote_then_is_quoted_witness :
    isIdentifierQuotedHelper (quoteIdentifier pgCtx "a") = true
    ∧ isIdentifierQuotedHelper (quoteIdentifierForce pgNoQuoteCtx "a" true) = true :=
  ⟨c3_quote_then_is_quoted.1 pgCtx "a" (by decide) rfl,
   c3_quote_then_is_quoted.2 pgNoQuoteCtx "a" (by decide)⟩

/-- C4 counterexample: with `alias === true`, a descriptor with no `as`
property, `name` property `"n"` and `tableName` `"t"` is aliased `"n"` — the
fallback is the descriptor's `name` property (source line 298:
`param.as || param.name || param`), not its `tableName` as claimed. -/
theorem c4_alias_fallback_counterexample :
    quoteTable pgCtx (.tobj ⟨none, "t", none, none, some "n"⟩) .aliasTrue
      = "\"t\" AS \"n\""
    ∧ ("\"t\" AS \"n\"" : String) ≠ "\"t\" AS \"t\"" :=
  ⟨rfl, by decide⟩

/-- C4 (amended): `quoteTable` with `alias === true` derives the alias from the
descriptor's `as` property, falling back to its `name` property, falling back
to the bare parameter; for a descriptor with a schema it emits
`quote(schema) ++ "." ++ quote(tableName)` when the dialect supports schemas
and otherwise concatenates `schema ++ delimiter ++ tableName` into one string
quoted as a single identifier; whenever a (truthy) alias is present it appends
`" AS " ++ quote(alias)`. -/
theorem c4_quote_table (c : Ctx) (o : TableObj) :
    (∀ a, o.asName = some a → a ≠ "" →
       quoteTable c (.tobj o) .aliasTrue = quoteTable c (.tobj o) (.aliasStr a))
    ∧ ((o.asName = none ∨ o.asName = some "") → ∀ n, o.nameAttr = some n → n ≠ "" →
       quoteTable c (.tobj o) .aliasTrue = quoteTable c (.tobj o) (.aliasStr n))
    ∧ (∀ s : String, s ≠ "" →
       quoteTable c (.tstr s) .aliasTrue = quoteTable c (.tstr s) (.aliasStr s))
    ∧ (∀ sch, o.schema = some sch → sch ≠ "" → c.supportsSchemas = true →
       quoteTable c (.tobj o) .aliasNone
         = quoteIdentifier c sch ++ "." ++ quoteIdentifier c o.tableName)
    ∧ (∀ sch d, o.schema = some sch → sch ≠ "" → o.delimiter = some d → d ≠ "" →
       c.supportsSchemas = false →
       quoteTable c (.tobj o) .aliasNone
         = quoteIdentifier c (sch ++ d ++ o.tableName))
    ∧ (∀ a, a ≠ "" →
       quoteTable c (.tobj o) (.aliasStr a)
         = quoteTable c (.tobj o) .aliasNone ++ " AS " ++ quoteIdentifier c a) := by
  refine ⟨?_, ?_, ?_, ?_, ?_, ?_⟩
  · intro a ha hne
    simp only [quoteTable, deriveAliasVal, ha]
    simp [hne]
  · intro hfalsy n hn hne
    rcases hfalsy with h0 | h0 <;>
      (simp only [quoteTable, deriveAliasVal, h0, hn]; simp [hne])
  · intro s hs
    simp [quoteTable, deriveAliasVal, hs]
  · intro sch hsch hne hsup
    simp only [quoteTable, hsch, hsup]
    simp [hne, String.append_assoc]
  · intro sch d hsch hne hd hdne hsup
    simp only [quoteTable, hsch, hd, hsup]
    simp [hne, hdne, String.append_assoc]
  · intro a ha
    simp only [quoteTable]
    simp [ha]

/-- C4 witness: `c4_quote_table` applied at concrete descriptors: schema
emission under a schema-supporting profile, schema-delimiter concatenation
under a non-supporting one, and the `as`-based alias derivation. -/
theorem c4_quote_table_witness :
    quoteTable pgCtx (.tobj ⟨some "s", "t", none, none, none⟩) .aliasNone
      = quoteIdentifier pgCtx "s" ++ "." ++ quoteIdentifier pgCtx "t"
    ∧ quoteTable mysqlCtx (.tobj ⟨some "s", "t", some "_", none, none⟩) .aliasNone
      = quoteIdentifier mysqlCtx ("s" ++ "_" ++ "t")
    ∧ quoteTable pgCtx (.tobj ⟨none, "t", none, some "al", none⟩) .aliasTrue
      = quoteTable pgCtx (.tobj ⟨none, "t", none, some "al", none⟩) (.aliasStr "al") :=
  ⟨(c4_quote_table pgCtx ⟨some "s", "t", none, none, none⟩).2.2.2.1 "s" rfl (by decide) rfl,
   (c4_quote_table mysqlCtx ⟨some "s", "t", some "_", none, none⟩).2.2.2.2.1 "s" "_"
     rfl (by decide) rfl (by decide) rfl,
   (c4_quote_table pgCtx ⟨none, "t", none, some "al", none⟩).1 "al" rfl (by decide)⟩

/-- C9: `escape` never invokes field-type validation for a value that is falsy
but present (`0`, the empty string, `false`): even with type validation
globally enabled and a validator on the field type, the result is the same as
with no validator at all, and the value still flows through the type's custom
stringifier (returned verbatim when the type declares its output pre-escaped)
and the generic escaper. -/
theorem c9_falsy_value_skips_validation (c : Ctx) (opts : EscOpts)
    (f : Value → Bool) (st? : Option (Value → String)) (ep : Bool) (v : Value)
    (hv : v = .vInt 0 ∨ v = .vStr "" ∨ v = .vBool false) :
    escape {c with typeValidation := true} v (some ⟨some ⟨some f, st?, ep⟩⟩) opts
      = escape {c with typeValidation := true} v (some ⟨some ⟨none, st?, ep⟩⟩) opts
    ∧ escape {c with typeValidation := true} v (some ⟨some ⟨some f, st?, ep⟩⟩) opts
      = .ok (match st? with
             | some st => if ep = false then st v else sqlStringEscape (.vStr (st v))
             | none => sqlStringEscape v) := by
  rcases hv with rfl | rfl | rfl <;>
  · refine ⟨rfl, ?_⟩
    cases hst : st? with
    | none =>
      simp only [escape, hst]
      rfl
    | some st =>
      cases hep : ep <;>
      · simp only [escape, hst, hep]
        rfl

/-- C9 witness: `c9_falsy_value_skips_validation` applied to the falsy value
`0` with an always-rejecting validator: validation is skipped, the stringifier
output is escaped. -/
theorem c9_falsy_value_skips_validation_witness :
    escape ⟨.postgres, true, true, true, []⟩ (.vInt 0)
        (some ⟨some ⟨some (fun _ => false), some (fun _ => "STR"), true⟩⟩) ⟨false, none⟩
      = .ok "'STR'" :=
  ((c9_falsy_value_skips_validation ⟨.postgres, true, true, false, []⟩ ⟨false, none⟩
      (fun _ => false) (some (fun _ => "STR")) true (.vInt 0) (Or.inl rfl)).2).trans rfl

/-- A string containing a dot cannot match any of the direction tokens, since
upper-casing preserves the dot and no token contains one. -/
theorem dotted_not_direction {s : String} (h : jsContainsDot s = true) :
    validOrderOptions.indexOf (jsToUpper s) = validOrderOptions.length := by
  apply List.indexOf_of_not_mem
  intro hm
  have hdot : '.' ∈ (jsToUpper s).data := by
    unfold jsToUpper
    show '.' ∈ List.map Char.toUpper s.data
    have h1 : '.' ∈ s.data := List.mem_of_elem_eq_true h
    have h2 : Char.toUpper '.' = '.' := by decide
    exact h2 ▸ List.mem_map_of_mem Char.toUpper h1
  simp only [validOrderOptions, List.mem_cons, List.not_mem_nil, or_false] at hm
  rcases hm with h0 | h0 | h0 | h0 | h0 | h0 | h0 | h0 <;>
    (rw [h0] at hdot; revert hdot; decide)

/-- C10: during path normalization with a current model whose attribute map is
defined, a dotted string element whose prefix segment is not a declared
attribute of that model makes the rewrite pass fail with the JavaScript
TypeError of the unchecked dereference rather than falling through to plain
identifier quoting; the success branch is reachable only when the prefix names
an existing attribute. -/
theorem c10_dotted_unknown_prefix_fails (c : Ctx) (parent? : Option ModelDesc)
    (prev? : Option QT) (idx : Nat) (m : ModelDesc) (s : String)
    (hpm : prevModelOf c parent? prev? = some m)
    (hraw : m.rawAttributesDefined = true)
    (hdot : jsContainsDot s = true)
    (hassoc : lookupAssociation m s = none)
    (hattr : lookupAttribute m s = none) :
    (lookupAttribute m (((jsSplitDots s).map String.mk).headD "") = none →
       rewriteStep c parent? prev? idx (.str s) = .error (.jsTypeError s))
    ∧ (∀ out, rewriteStep c parent? prev? idx (.str s) = .ok out →
       (lookupAttribute m (((jsSplitDots s).map String.mk).headD "")).isSome = true) := by
  have hstep : rewriteStep c parent? prev? idx (.str s) = dotBranch c m s := by
    unfold rewriteStep
    simp only [hpm]
    unfold stringRewrite
    rw [if_neg (by simp [dotted_not_direction hdot])]
    cases had : m.associationsDefined <;>
      simp [had, hassoc, hraw, hattr]
  constructor
  · intro hnone
    rw [hstep]
    unfold dotBranch
    rw [if_pos ⟨hdot, hraw⟩, hnone]
  · intro out hok
    rw [hstep] at hok
    unfold dotBranch at hok
    rw [if_pos ⟨hdot, hraw⟩] at hok
    cases hl : lookupAttribute m (((jsSplitDots s).map String.mk).headD "") with
    | none => rw [hl] at hok; cases hok
    | some attr => rfl

/-- C10 witness: `c10_dotted_unknown_prefix_fails` on model `B` (whose only
attribute is `title`) and the dotted element `"nope.x"`. -/
theorem c10_dotted_unknown_prefix_fails_witness :
    rewriteStep pgCtx (some modelB) none 0 (.str "nope.x")
      = .error (.jsTypeError "nope.x") :=
  (c10_dotted_unknown_prefix_fails pgCtx (some modelB) none 0 modelB "nope.x"
      rfl rfl (by decide) rfl rfl).1 rfl

theorem modifyHead_append_of_ne_nil {α} (f : List α → List α)
    (l l2 : List (List α)) (h : l ≠ []) :
    (l ++ l2).modifyHead f = l.modifyHead f ++ l2 := by
  cases l with
  | nil => exact absurd rfl h
  | cons x t => rfl

theorem splitOn_sepfree {b : List Char} (hb : '.' ∉ b) :
    b.splitOn '.' = [b] := by
  unfold List.splitOn
  apply List.splitOnP_eq_single
  intro x hx
  simp only [beq_iff_eq]
  intro hxeq
  exact hb (hxeq ▸ hx)

theorem splitOn_append_last (a : List Char) {b : List Char} (hb : '.' ∉ b) :
    (a ++ '.' :: b).splitOn '.' = a.splitOn '.' ++ [b] := by
  induction a with
  | nil =>
    show (('.' :: b).splitOnP (· == '.')) = [].splitOn '.' ++ [b]
    rw [List.splitOnP_cons]
    rw [if_pos (by simp)]
    rw [show b.splitOnP (· == '.') = b.splitOn '.' from rfl]
    rw [splitOn_sepfree hb]
    rfl
  | cons x t ih =>
    show ((x :: (t ++ '.' :: b)).splitOnP (· == '.'))
        = ((x :: t).splitOnP (· == '.')) ++ [b]
    rw [List.splitOnP_cons, List.splitOnP_cons]
    by_cases hx : x = '.'
    · rw [if_pos (by simp [hx]), if_pos (by simp [hx])]
      rw [show (t ++ '.' :: b).splitOnP (· == '.') = (t ++ '.' :: b).splitOn '.' from rfl]
      rw [ih]
      rfl
    · rw [if_neg (by simp [hx]), if_neg (by simp [hx])]
      rw [show (t ++ '.' :: b).splitOnP (· == '.') = (t ++ '.' :: b).splitOn '.' from rfl]
      rw [ih]
      exact modifyHead_append_of_ne_nil _ _ _ (List.splitOnP_ne_nil _ t)

/-- C6: for every input string containing at least one dot, `quoteIdentifiers`
splits only at the last dot: the head (everything before the last dot, possibly
itself containing dots) is quoted as a single identifier, the tail is quoted
separately, and the two are joined with `"."`; in particular `"a.b.c"` under
the double-quote dialect yields `"a.b"."c"`. -/
theorem c6_last_dot_split :
    (∀ (c : Ctx) (a b : String), '.' ∉ b.data →
       quoteIdentifiers c (a ++ "." ++ b)
         = quoteIdentifier c a ++ "." ++ quoteIdentifier c b)
    ∧ quoteIdentifiers pgCtx "a.b.c" = "\"a.b\".\"c\"" := by
  constructor
  · intro c a b hb
    have hdata : (a ++ "." ++ b).data = a.data ++ '.' :: b.data := by
      rw [String.data_append, String.data_append]
      simp
    have hsplit : jsSplitDots (a ++ "." ++ b) = a.data.splitOn '.' ++ [b.data] := by
      unfold jsSplitDots
      rw [hdata]
      exact splitOn_append_last a.data hb
    have hcont : jsContainsDot (a ++ "." ++ b) = true := by
      unfold jsContainsDot
      rw [hdata]
      exact List.elem_eq_true_of_mem (by simp)
    unfold quoteIdentifiers
    rw [if_pos hcont, hsplit]
    simp only [List.dropLast_concat]
    simp only [show (a.data.splitOn '.' ++ [b.data]).getLastD [] = b.data by
      simp [List.getLastD_eq_getLast?, List.getLast?_concat]]
    simp only [List.intercalate_splitOn]
  · rfl

/-- C6 witness: the general clause of `c6_last_dot_split` applied at head
`"a.b"` (itself containing a dot) and tail `"c"`. -/
theorem c6_last_dot_split_witness :
    quoteIdentifiers pgCtx ("a.b" ++ "." ++ "c")
      = quoteIdentifier pgCtx "a.b" ++ "." ++ quoteIdentifier pgCtx "c" :=
  c6_last_dot_split.1 pgCtx "a.b" "c" (by decide)

def isAssocQT : QT → Bool
  | .assoc _ => true
  | _ => false

/-- The prefix construction exactly as the specification words it in claim C5:
scan from the first element collecting consecutive association-edge elements
until the first string, literal, or model-attribute-ref element; join their
aliases with the connector, quote the joined chain as one identifier, and
append a dot.  If no association edges precede the boundary and the first
element is a bare string while a parent model is present, the prefix is the
quoted parent model name and a dot instead; otherwise it is empty. -/
def specLeadingText (c : Ctx) (parent? : Option ModelDesc) (conn : String)
    (items : List QT) : String :=
  match items.takeWhile isAssocQT with
  | [] =>
    match items.head?, parent? with
    | some (.str _), some p => quoteIdentifier c p.name ++ "."
    | _, _ => ""
  | edgeItems =>
    quoteIdentifier c (jsJoin conn (edgeItems.filterMap (fun it =>
      match it with
      | .assoc a => some a.asName
      | _ => none))) ++ "."

theorem boundary_not_assoc {b : QT} (hb : isBoundaryQT b = true) :
    isAssocQT b = false := by
  cases b <;> simp_all [isBoundaryQT, isAssocQT]

theorem takeWhile_assoc_leading (edges : List Association) {b : QT}
    (rest : List QT) (hb : isBoundaryQT b = true) :
    (edges.map QT.assoc ++ b :: rest).takeWhile isAssocQT = edges.map QT.assoc := by
  induction edges with
  | nil =>
    show (b :: rest).takeWhile isAssocQT = []
    simp [List.takeWhile_cons, boundary_not_assoc hb]
  | cons e es ih =>
    show (QT.assoc e :: (es.map QT.assoc ++ b :: rest)).takeWhile isAssocQT
        = QT.assoc e :: es.map QT.assoc
    rw [List.takeWhile_cons]
    simp only [isAssocQT, if_true]
    rw [ih]

theorem scanLoop_onestep_boundary {b : QT} (hb : isBoundaryQT b = true)
    (stop i : Nat) (rest : List QT) (tn : List (Option String)) :
    scanLoop stop i (b :: rest) tn = (i, tn) := by
  unfold scanLoop
  by_cases hlt : i < stop
  · rw [if_pos hlt, if_pos hb]
  · rw [if_neg hlt]

/-- The prefix loop on a well-formed rewritten sequence (edges, then a
boundary element, then anything): it stops at the boundary with exactly the
edges' aliases recorded in order. -/
theorem scanLoop_spec (edges : List Association) (b : QT) (rest : List QT)
    (hb : isBoundaryQT b = true) :
    ∀ (i : Nat) (tn : List (Option String)) (stop : Nat), tn.length = i →
    stop = i + edges.length + rest.length →
    scanLoop stop i (edges.map QT.assoc ++ b :: rest) tn
      = (i + edges.length, tn ++ edges.map (fun e => some e.asName)) := by
  induction edges with
  | nil =>
    intro i tn stop hlen hstop
    show scanLoop stop i (b :: rest) tn = (i + 0, tn ++ [])
    rw [scanLoop_onestep_boundary hb]
    simp
  | cons e es ih =>
    intro i tn stop hlen hstop
    show scanLoop stop i (QT.assoc e :: (es.map QT.assoc ++ b :: rest)) tn
        = (i + (es.length + 1), tn ++ (some e.asName :: es.map (fun x => some x.asName)))
    unfold scanLoop
    rw [if_pos (by simp only [hstop, List.length_cons]; omega)]
    rw [if_neg (by simp [isBoundaryQT])]
    show scanLoop stop (i + 1) (es.map QT.assoc ++ b :: rest) (setSparse tn i e.asName)
        = _
    have hset : setSparse tn i e.asName = tn ++ [some e.asName] := by
      unfold setSparse
      rw [hlen]
      simp
    rw [hset]
    rw [ih (i + 1) (tn ++ [some e.asName]) stop (by simp [hlen])
        (by simp only [hstop, List.length_cons]; omega)]
    have harith : i + 1 + es.length = i + (es.length + 1) := by omega
    rw [harith]
    simp

/-- C5: normalizing a path after the rewrite pass builds its prefix exactly as
the specification describes — the aliases of the leading consecutive
association edges up to the first string/literal/attribute-ref boundary,
joined with the connector, quoted as one identifier and followed by a dot
(falling back to the quoted parent name for a bare leading string with a
parent present) — and every element from the boundary onward is recursively
normalized and concatenated with no inserted separator. -/
theorem c5_prefix_construction (c : Ctx) (parent? : Option ModelDesc)
    (conn : String) (edges : List Association) (b : QT) (rest : List QT)
    (hb : isBoundaryQT b = true) :
    quotePost c parent? conn (edges.map QT.assoc ++ b :: rest)
      = quoteList c parent? conn
          (specLeadingText c parent? conn (edges.map QT.assoc ++ b :: rest))
          (b :: rest) := by
  rw [quotePost_eq]
  have hscan : scanLoop ((edges.map QT.assoc ++ b :: rest).length - 1) 0
      (edges.map QT.assoc ++ b :: rest) []
      = (edges.length, edges.map (fun e => some e.asName)) := by
    have hlen : (edges.map QT.assoc ++ b :: rest).length - 1
        = 0 + edges.length + rest.length := by
      simp [List.length_append]
    rw [hlen]
    have h0 := scanLoop_spec edges b rest hb 0 [] (0 + edges.length + rest.length)
      rfl rfl
    simpa using h0
  rw [hscan]
  have hdrop : (edges.map QT.assoc ++ b :: rest).drop
      (edges.length, edges.map (fun e => some e.asName)).1 = b :: rest := by
    show (edges.map QT.assoc ++ b :: rest).drop edges.length = b :: rest
    rw [show edges.length = (edges.map QT.assoc).length by simp]
    exact List.drop_left _ _
  rw [hdrop]
  unfold specLeadingText
  rw [takeWhile_assoc_leading edges rest hb]
  cases edges with
  | nil =>
    congr 1
    cases b <;> cases parent? <;>
      simp [List.head?, isBoundaryQT] at hb ⊢
  | cons e es =>
    congr 1
    rw [if_pos (by simp)]
    have hjoin : joinSparse conn ((e :: es).length,
          (e :: es).map (fun x => some x.asName)).2
        = jsJoin conn (((e :: es).map QT.assoc).filterMap (fun it =>
            match it with
            | .assoc a => some a.asName
            | _ => none)) := by
      show joinSparse conn ((e :: es).map (fun x => some x.asName)) = _
      unfold joinSparse
      rw [List.map_map, List.filterMap_map]
      rw [show ((fun o => Option.getD o "") ∘ fun x : Association => some x.asName)
          = (fun x : Association => x.asName) from rfl]
      rw [show ((fun it => match it with
            | QT.assoc a => some a.asName
            | _ => none) ∘ QT.assoc) = (some ∘ fun a : Association => a.asName) from rfl]
      rw [List.filterMap_eq_map]
    rw [hjoin]
    rw [List.map_cons]

/-- C5 witness: `c5_prefix_construction` on the rewritten sequence of claim C1
(one association edge, then the terminal column string). -/
theorem c5_prefix_construction_witness :
    quotePost pgCtx (some modelA) "." [.assoc postsAssoc, .str "title"]
      = quoteList pgCtx (some modelA) "."
          (specLeadingText pgCtx (some modelA) "." [.assoc postsAssoc, .str "title"])
          [.str "title"] :=
  c5_prefix_construction pgCtx (some modelA) "." [postsAssoc] (.str "title") []
    (by decide)

end QueryGen
